import Mathlib

/-!
Verification of the Excel Korean-to-English translation pipeline (src/app.py)
against its natural-language specification.

The development shallowly embeds the pipeline layer of the program:
the translation backend (an HTTP service) is modelled as an oracle
`Nat → BackendResult` indexed by the global attempt counter, and every
backend attempt is recorded in a log of the text arguments passed to
`translate_with_context`, so that claims about how often the backend is
consulted can be stated.  All recursion is fuelled so that every
definition reduces in the kernel (concrete counterexamples are settled
by `decide` / `rfl`).
-/

set_option maxRecDepth 16384

/-- Outcome of one HTTP attempt against the Ollama backend, as
distinguished by `translate_with_context` (src/app.py lines 329-358):
an exception (connection error / timeout / JSON failure), a non-200
status, a 200 response whose `response` field is missing or empty, or a
200 response carrying the text `s`.  A missing/empty `response` field is
folded into `emptyResp`; `ok s` with `s = ""` is also treated as empty
by the code (`if not result.get('response')`). -/
inductive BackendResult where
  | err : BackendResult
  | badStatus : BackendResult
  | emptyResp : BackendResult
  | ok : String → BackendResult
deriving DecidableEq

/-- Python whitespace characters recognised by `str.strip()` (ASCII part;
the unicode whitespace extension is irrelevant to every input considered
here). -/
def pyWs (c : Char) : Bool :=
  c == ' ' || c == '\t' || c == '\n' || c == '\r' || c == '\x0b' || c == '\x0c'

/-- Python `str.strip()`: drop leading and trailing whitespace. -/
def pyStrip (s : String) : String :=
  String.mk (((s.toList.dropWhile pyWs).reverse.dropWhile pyWs).reverse)

/-- The batch sentinel separator `"\n---SPLIT---\n"` used by
`batch_translate` (src/app.py lines 82, 89). -/
def SENTINEL : String := "\n---SPLIT---\n"

/-- Python `"\n---SPLIT---\n".join(texts)` (src/app.py line 82). -/
def joinSent : List String → String
  | [] => ""
  | [x] => x
  | x :: y :: ys => x ++ SENTINEL ++ joinSent (y :: ys)

/-- Fuelled worker for `splitSent`: Python `str.split(sep)` with the
fixed nonempty separator `SENTINEL`, scanning left to right for
non-overlapping occurrences.  `acc` is the current segment, reversed. -/
def splitSentAux : Nat → List Char → List Char → List (List Char)
  | 0, acc, l => [acc.reverse ++ l]
  | Nat.succ fuel, acc, l =>
    if SENTINEL.toList.isPrefixOf l then
      acc.reverse :: splitSentAux fuel [] (l.drop SENTINEL.toList.length)
    else
      match l with
      | [] => [acc.reverse]
      | c :: rest => splitSentAux fuel (c :: acc) rest

/-- Python `combined_translation.split("\n---SPLIT---\n")`
(src/app.py line 89). -/
def splitSent (s : String) : List String :=
  (splitSentAux s.toList.length [] s.toList).map String.mk

/-- Retry budget `MAX_RETRIES` (src/app.py line 22). -/
def MAX_RETRIES : Nat := 3

/-- Batch size `BATCH_SIZE` (src/app.py line 68). -/
def BATCH_SIZE : Nat := 10

/-- The attempt loop of `translate_with_context` (src/app.py lines
289-362).  Each iteration performs one backend attempt (recorded by
appending the text argument to the log; the oracle is consulted at the
current global attempt index, i.e. the log length).  A non-200 status
and an empty response `continue`; a nonempty response returns its
`strip()`; an exception on the last attempt returns the original text,
which coincides with falling out of the loop.  The `time.sleep(1)` on
line 360 is unreachable (every path in the loop body ends in `continue`
or `return`), so no delay is modelled. -/
def twcLoop (oracle : Nat → BackendResult) (text : String) :
    Nat → List String → String × List String
  | 0, log => (text, log)
  | Nat.succ n, log =>
    match oracle log.length with
    | BackendResult.ok s =>
      if s == "" then twcLoop oracle text n (log ++ [text])
      else (pyStrip s, log ++ [text])
    | _ => twcLoop oracle text n (log ++ [text])

/-- Embedding of `translate_with_context(text, context)` (src/app.py
lines 283-362).  An empty text returns immediately without consulting
the backend (`if not text: return text`).  The rendered context block
and the 600-character prompt truncation only affect the prompt string
sent over the wire, which the oracle abstracts; they do not affect the
control flow embedded here. -/
def translate_with_context (oracle : Nat → BackendResult) (text : String)
    (log : List String) : String × List String :=
  if text == "" then (text, log) else twcLoop oracle text MAX_RETRIES log

/-- The inner individual-retry loop of `retry_failed_translations`
(src/app.py lines 117-127): up to 3 calls of `translate_with_context`;
the first result that is truthy and has truthy `strip()` is accepted.
`translate_with_context` never raises (it catches every exception), so
the `except` arm — and its `time.sleep(1)` — is unreachable. -/
def individualLoop (oracle : Nat → BackendResult) (orig : String) :
    Nat → List String → Option String × List String
  | 0, log => (none, log)
  | Nat.succ n, log =>
    let r := translate_with_context oracle orig log
    if !(r.1 == "") && !(pyStrip r.1 == "") then (some r.1, r.2)
    else individualLoop oracle orig n r.2

/-- Worker for `retry_failed_translations`: walks
`zip(original_texts, valid_translations)` (src/app.py line 111).  A
missing translation (Python `None`) is modelled by `""`, which Python's
truthiness test `if trans:` treats identically to an empty string. -/
def rftLoop (oracle : Nat → BackendResult) :
    List (String × String) → List String → List String × List String
  | [], log => ([], log)
  | (orig, tr) :: rest, log =>
    if !(tr == "") then
      let r := rftLoop oracle rest log
      (tr :: r.1, r.2)
    else
      let ir := individualLoop oracle orig 3 log
      let r := rftLoop oracle rest ir.2
      (((ir.1).getD orig) :: r.1, r.2)

/-- Embedding of `retry_failed_translations(original_texts,
partial_translations, context)` (src/app.py lines 101-133).  Note that
Python's `zip` stops at the shorter list: when the supplied prior
segment list is nonempty but shorter than `original_texts`, the trailing
original texts are silently dropped from the result. -/
def retry_failed_translations (oracle : Nat → BackendResult)
    (texts : List String) (priorSegs : Option (List String))
    (log : List String) : List String × List String :=
  let valid : List String :=
    match priorSegs with
    | some (x :: xs) => (x :: xs).take texts.length
    | _ => List.replicate texts.length ""
  rftLoop oracle (texts.zip valid) log

/-- Embedding of `batch_translate(texts, context)` (src/app.py lines
75-99).  The `except` arm is unreachable because
`translate_with_context` is total, so only the straight-line paths are
embedded. -/
def batch_translate (oracle : Nat → BackendResult) (texts : List String)
    (log : List String) : List String × List String :=
  if texts == [] then ([], log)
  else
    let combined := joinSent texts
    let r := translate_with_context oracle combined log
    if r.1 == "" then retry_failed_translations oracle texts none r.2
    else
      let translations := splitSent r.1
      if !(translations.length == texts.length) then
        retry_failed_translations oracle texts (some translations) r.2
      else (translations, r.2)

/-- Digit-run tail for Python float syntax: digits optionally separated
by single underscores (`1_000`); an underscore must sit between two
digits. -/
def digitsTail : List Char → Bool
  | '_' :: c :: rest => c.isDigit && digitsTail rest
  | c :: rest => c.isDigit && digitsTail rest
  | [] => true

/-- A Python float `digitpart`: nonempty digit run with optional
internal underscores. -/
def digitPart : List Char → Bool
  | c :: rest => c.isDigit && digitsTail rest
  | [] => false

/-- Split at the first `'.'`, if any. -/
def splitDot : List Char → List Char × Option (List Char)
  | [] => ([], none)
  | '.' :: rest => ([], some rest)
  | c :: rest =>
    let r := splitDot rest
    (c :: r.1, r.2)

/-- Python float mantissa (no sign, no exponent): `digits`, `digits.`,
`digits.digits` or `.digits`. -/
def mantissaOk (l : List Char) : Bool :=
  match splitDot l with
  | (a, none) => digitPart a
  | (a, some b) =>
    if b.contains '.' then false
    else if a == [] then digitPart b
    else digitPart a && (b == [] || digitPart b)

/-- Split at the first `'e'`/`'E'`, if any. -/
def splitExp : List Char → List Char × Option (List Char)
  | [] => ([], none)
  | c :: rest =>
    if c == 'e' || c == 'E' then ([], some rest)
    else
      let r := splitExp rest
      (c :: r.1, r.2)

/-- Drop one leading sign character. -/
def signStrip : List Char → List Char
  | '+' :: r => r
  | '-' :: r => r
  | l => l

/-- Python float number syntax after the sign: mantissa with optional
signed-integer exponent. -/
def floatBody (l : List Char) : Bool :=
  match splitExp l with
  | (m, none) => mantissaOk m
  | (m, some ex) => mantissaOk m && digitPart (signStrip ex)

/-- Case-insensitive comparison against a fixed ASCII word. -/
def lowerEq (l : List Char) (w : String) : Bool :=
  l.map Char.toLower == w.toList

/-- The special Python float tokens `inf`, `infinity`, `nan`
(case-insensitive). -/
def infNan (l : List Char) : Bool :=
  lowerEq l "inf" || lowerEq l "infinity" || lowerEq l "nan"

/-- Python `float(s)` parse success (ASCII model: unicode decimal digits
are not modelled, and none appear in any input considered here).
Surrounding whitespace is tolerated, then an optional sign, then either
an inf/nan token or a float literal. -/
def pyFloatParses (s : String) : Bool :=
  let body := signStrip (((s.toList.dropWhile pyWs).reverse.dropWhile pyWs).reverse)
  infNan body || floatBody body

/-- Python `text.replace(',', '').replace('$', '').replace('%', '')`
(src/app.py line 369): remove every occurrence of the three formatting
characters. -/
def removeFmtChars (s : String) : String :=
  String.mk (s.toList.filter (fun c => !(c == ',' || c == '$' || c == '%')))

/-- Embedding of `is_numeric_string(text)` for string input (src/app.py
lines 364-374): strip `,`/`$`/`%` and whitespace, then test whether
`float()` accepts the remainder. -/
def is_numeric_string (text : String) : Bool :=
  pyFloatParses (pyStrip (removeFmtChars text))

/-- A cell value as the pipeline distinguishes them: string, number or
boolean (dates behave like numbers for the pipeline: they are not `str`
instances, so they are copied unchanged; `none` is an empty cell). -/
inductive CellValue where
  | str : String → CellValue
  | num : Int → CellValue
  | boolv : Bool → CellValue
deriving DecidableEq

/-- Opaque style descriptor: the six attributes `process_sheet` copies
(src/app.py lines 443-448), each modelled as an opaque token. -/
structure Style where
  font : Nat
  border : Nat
  fill : Nat
  numberFormat : Nat
  alignment : Nat
  protection : Nat
deriving DecidableEq

/-- The style of a cell that was never styled (openpyxl `has_style =
False`) and of a destination cell that was never written. -/
def defaultStyle : Style := ⟨0, 0, 0, 0, 0, 0⟩

/-- A source-sheet cell as `process_sheet` reads it.  `isMergedMember`
marks a non-anchor `MergedCell` instance (skipped by the `isinstance`
test on src/app.py line 436); `hasStyle` is openpyxl `cell.has_style`. -/
structure SrcCell where
  row : Nat
  col : Nat
  value : Option CellValue
  hasStyle : Bool
  style : Style
  isMergedMember : Bool
deriving DecidableEq

/-- A merged-cell rectangle (top-left / bottom-right coordinates). -/
structure MergeRange where
  r1 : Nat
  c1 : Nat
  r2 : Nat
  c2 : Nat
deriving DecidableEq

/-- A source sheet: cells in `iter_rows()` order plus the sheet-level
metadata `process_sheet` copies. -/
structure SrcSheet where
  cells : List SrcCell
  colDims : List (Nat × Nat)
  rowDims : List (Nat × Nat)
  mergedRanges : List MergeRange
deriving DecidableEq

/-- A destination-sheet cell created by `new_sheet.cell(row, column)`. -/
structure DstCell where
  row : Nat
  col : Nat
  value : Option CellValue
  style : Style
deriving DecidableEq

/-- The destination sheet produced by `process_sheet`. -/
structure DstSheet where
  cells : List DstCell
  colDims : List (Nat × Nat)
  rowDims : List (Nat × Nat)
  mergedRanges : List MergeRange
deriving DecidableEq

/-- The translatability test of src/app.py line 451: `cell.value and
isinstance(cell.value, str) and not is_numeric_string(cell.value)`.
Returns the string to translate, or `none` when the value is copied
unchanged. -/
def translatableText : Option CellValue → Option String
  | some (CellValue.str s) =>
    if !(s == "") && !(is_numeric_string s) then some s else none
  | _ => none

/-- The `cells_to_process` list collected by `process_sheet` (src/app.py
lines 433-454): position and text of every non-merged cell holding a
translatable string, in `iter_rows()` order. -/
def cellsToProcess (cells : List SrcCell) : List ((Nat × Nat) × String) :=
  cells.filterMap (fun c =>
    if c.isMergedMember then none
    else
      match translatableText c.value with
      | some s => some ((c.row, c.col), s)
      | none => none)

/-- Fuelled first-occurrence deduplication, matching Python dict key
insertion order in `process_cell_batch` (src/app.py lines 137-140). -/
def dedupAux : Nat → List String → List String
  | _, [] => []
  | 0, x :: xs => x :: xs
  | Nat.succ fuel, x :: xs => x :: dedupAux fuel (xs.filter (fun y => !(y == x)))

/-- First-occurrence deduplication of a list of strings. -/
def dedupFirst (l : List String) : List String := dedupAux l.length l

/-- The key list of `unique_texts` built by `process_cell_batch`: the
distinct nonempty texts of the batch (`if text:`), in first-occurrence
order. -/
def keysOf (batch : List ((Nat × Nat) × String)) : List String :=
  dedupFirst ((batch.map (fun x => x.2)).filter (fun s => !(s == "")))

/-- The cell-position list `unique_texts[t]`: the positions in the batch
whose text is `t`, in batch order. -/
def groupCells (batch : List ((Nat × Nat) × String)) (t : String) :
    List (Nat × Nat) :=
  batch.filterMap (fun x => if x.2 == t then some x.1 else none)

/-- Embedding of `process_cell_batch(batch, context)` (src/app.py lines
135-151): deduplicate the batch's texts, translate the unique texts in
one `batch_translate` call, and pair every cell position with the
translation of its text.  `zip(unique_texts.keys(), translations)` stops
at the shorter list, so keys beyond the translation count receive no
result. -/
def process_cell_batch (oracle : Nat → BackendResult)
    (batch : List ((Nat × Nat) × String)) (log : List String) :
    List ((Nat × Nat) × String) × List String :=
  let keys := keysOf batch
  let r := batch_translate oracle keys log
  (((keys.zip r.1).map
      (fun kt => (groupCells batch kt.1).map (fun c => (c, kt.2)))).flatten,
   r.2)

/-- Fuelled chunking: Python `cells_to_process[i:i + BATCH_SIZE]` for
`i in range(0, len, BATCH_SIZE)` (src/app.py lines 457-458). -/
def chunksAux {α : Type} : Nat → List α → List (List α)
  | _, [] => []
  | 0, c :: rest => [c :: rest]
  | Nat.succ fuel, c :: rest =>
    (c :: rest).take BATCH_SIZE :: chunksAux fuel ((c :: rest).drop BATCH_SIZE)

/-- Split a list into consecutive chunks of `BATCH_SIZE`. -/
def chunksOf10 {α : Type} (l : List α) : List (List α) := chunksAux l.length l

/-- The batched translation loop of `process_sheet` (src/app.py lines
456-463): process each chunk with `process_cell_batch`, accumulating the
(position, translation) results. -/
def translateResults (oracle : Nat → BackendResult)
    (c2p : List ((Nat × Nat) × String)) (log : List String) :
    List ((Nat × Nat) × String) × List String :=
  (chunksOf10 c2p).foldl
    (fun acc b =>
      let r := process_cell_batch oracle b acc.2
      (acc.1 ++ r.1, r.2))
    ([], log)

/-- The style copy of src/app.py lines 443-448: the six attributes are
copied one by one when `cell.has_style` holds. -/
def copyStyle (c : SrcCell) : Style :=
  { font := c.style.font
    border := c.style.border
    fill := c.style.fill
    numberFormat := c.style.numberFormat
    protection := c.style.protection
    alignment := c.style.alignment }

/-- The destination cell produced for one non-merged source cell: style
copied when `has_style` (otherwise the fresh cell keeps the default
style); a non-translatable value is copied at creation (line 454), while
a translatable cell is left empty and filled from the batch results
(lines 461-463) — a cell whose text never received a translation (the
`zip` shortfall) stays empty. -/
def mkDst (results : List ((Nat × Nat) × String)) (c : SrcCell) : DstCell :=
  { row := c.row
    col := c.col
    style := if c.hasStyle then copyStyle c else defaultStyle
    value :=
      match translatableText c.value with
      | some _ =>
        (results.find? (fun e => e.1.1 == c.row && e.1.2 == c.col)).map
          (fun e => CellValue.str e.2)
      | none => c.value }

/-- The destination cell list: one cell per non-merged source cell
(`MergedCell` instances are skipped entirely — no destination cell is
created for them, src/app.py lines 436-437). -/
def dstCells (cells : List SrcCell)
    (results : List ((Nat × Nat) × String)) : List DstCell :=
  cells.filterMap (fun c =>
    if c.isMergedMember then none else some (mkDst results c))

/-- Embedding of `process_sheet(sheet, new_sheet, context)` (src/app.py
lines 419-469): copy dimensions; copy merged ranges only when the
source's range set is truthy (an empty `MultiCellRange` is falsy, and
the fresh destination sheet already has no merges); create styled
destination cells; translate the collected cells in batches of
`BATCH_SIZE` and write the results back. -/
def process_sheet (oracle : Nat → BackendResult) (src : SrcSheet)
    (log : List String) : DstSheet × List String :=
  let c2p := cellsToProcess src.cells
  let r := translateResults oracle c2p log
  ({ cells := dstCells src.cells r.1
     colDims := src.colDims
     rowDims := src.rowDims
     mergedRanges := if src.mergedRanges.isEmpty then [] else src.mergedRanges },
   r.2)

/-- Value of the destination sheet at a position: the value of the first
(and, for well-formed sheets, only) written cell there, or `none` when
no cell was created at that position. -/
def dstValueAt (d : DstSheet) (r c : Nat) : Option CellValue :=
  match d.cells.find? (fun e => e.row == r && e.col == c) with
  | some e => e.value
  | none => none

/-- Style of the destination sheet at a position: a never-written cell
carries the default style. -/
def dstStyleAt (d : DstSheet) (r c : Nat) : Style :=
  match d.cells.find? (fun e => e.row == r && e.col == c) with
  | some e => e.style
  | none => defaultStyle

/-- The run state of `process_excel` (src/app.py lines 376-417): the
source workbook that is read, the destination workbook being built, and
the backend-attempt log.  Each Python statement of the pipeline is
transcribed as an update of the destination component (or of the log);
the source component is only ever read.  Sheet tasks run on a thread
pool in the source; the embedding serialises them in source order, which
fixes one interleaving of the shared attempt counter and does not affect
any per-sheet claim. -/
structure PipeState where
  srcSheets : List SrcSheet
  dstSheets : List DstSheet
  log : List String

/-- Embedding of `process_excel(file)` (src/app.py lines 376-417): start
from a fresh destination workbook (the default sheet is removed), then
process every source sheet into a new destination sheet, in source
order. -/
def process_excel (oracle : Nat → BackendResult) (st : PipeState) : PipeState :=
  st.srcSheets.foldl
    (fun acc sh =>
      let r := process_sheet oracle sh acc.log
      { acc with dstSheets := acc.dstSheets ++ [r.1], log := r.2 })
    { st with dstSheets := [] }

/-- A cell as seen by `analyze_excel_structure`: `value` is
`str(cell.value)` when the raw value is truthy (`if cell.value`), and
`none` when the cell is empty or its raw value is falsy; `numberFormat`
is the cell's number-format string (`""` when falsy). -/
structure ACell where
  value : Option String
  numberFormat : String

/-- A sheet as seen by the analyzer: its rows (`iter_rows()` order) and
the `max_row` / `max_column` dimensions used for the total cell count. -/
structure ASheet where
  rows : List (List ACell)
  maxRow : Nat
  maxCol : Nat

/-- The mutable context dictionary of `analyze_excel_structure`
(src/app.py lines 155-165).  Python sets are modelled as
insertion-ordered duplicate-free lists, the `repeated_terms` dict as an
insertion-ordered association list. -/
structure PyContext where
  headers : List String
  rowHeaders : List String
  dates : List String
  times : List String
  formulas : List String
  currencies : List String
  bulletTypes : List String
  cellFormats : List String
  repeatedTerms : List (String × Nat)

/-- The empty context of src/app.py lines 155-165. -/
def emptyContext : PyContext := ⟨[], [], [], [], [], [], [], [], []⟩

/-- Python `set.add`: append unless already present. -/
def insertSet (l : List String) (x : String) : List String :=
  if l.contains x then l else l ++ [x]

/-- Python `d[k] = d.get(k, 0) + 1` on an insertion-ordered dict. -/
def bumpTerm : List (String × Nat) → String → List (String × Nat)
  | [], k => [(k, 1)]
  | (a, n) :: rest, k =>
    if a == k then (a, n + 1) :: rest else (a, n) :: bumpTerm rest k

/-- Python `str.take`-style slice `value[:n]`. -/
def strTake (s : String) (n : Nat) : String := String.mk (s.toList.take n)

/-- Does the string start with the given character (`value.startswith`)? -/
def strStartsEq (s : String) (c : Char) : Bool :=
  match s.toList with
  | d :: _ => d == c
  | [] => false

/-- Contiguous-subsequence containment (Python `sub in s`). -/
def containsSeq (sub : List Char) : List Char → Bool
  | [] => sub.isEmpty
  | c :: rest => sub.isPrefixOf (c :: rest) || containsSeq sub rest

/-- The fixed bullet-marker set of src/app.py line 202. -/
def bulletChars : List Char := ['•', '-', '□', '○', '◆']

/-- Python `value.strip().startswith(('•', '-', '□', '○', '◆'))`. -/
def stripStartsBullet (value : String) : Bool :=
  match (pyStrip value).toList with
  | c :: _ => bulletChars.contains c
  | [] => false

/-- Does the lower-cased string contain one of the characters? -/
def lowerHasAny (s : String) (cs : List Char) : Bool :=
  (s.toList.map Char.toLower).any (fun c => cs.contains c)

/-- Python `any(curr in nf for curr in ['$', '￦', '¥', '€', 'RM'])`
(src/app.py line 212). -/
def currencyIn (nf : String) : Bool :=
  containsSeq "$".toList nf.toList || containsSeq "￦".toList nf.toList ||
  containsSeq "¥".toList nf.toList || containsSeq "€".toList nf.toList ||
  containsSeq "RM".toList nf.toList

/-- Formula-sample step (src/app.py lines 199-200): capped at
`max_items`, the stored pattern truncated to 100 characters.
`value = str(cell.value)` is always a `str`, so the `isinstance` guard
always holds. -/
def stepFormulas (maxItems : Nat) (value : String) (ctx : PyContext) : PyContext :=
  if ctx.formulas.length < maxItems && strStartsEq value '=' then
    { ctx with formulas := insertSet ctx.formulas (strTake value 100) }
  else ctx

/-- Bullet-marker step (src/app.py lines 202-203): capped at 10; note
the recorded marker is `value[0]`, the first character of the
*unstripped* value. -/
def stepBullets (value : String) (ctx : PyContext) : PyContext :=
  if ctx.bulletTypes.length < 10 && stripStartsBullet value then
    { ctx with bulletTypes := insertSet ctx.bulletTypes (strTake value 1) }
  else ctx

/-- Date-format sample step (src/app.py lines 206-207): capped at 10. -/
def stepDates (nf : String) (ctx : PyContext) : PyContext :=
  if ctx.dates.length < 10 && lowerHasAny nf ['y', 'm', 'd'] then
    { ctx with dates := insertSet ctx.dates nf }
  else ctx

/-- Time-format sample step (src/app.py lines 209-210): capped at 10. -/
def stepTimes (nf : String) (ctx : PyContext) : PyContext :=
  if ctx.times.length < 10 && (lowerHasAny nf ['h'] || nf.toList.contains ':') then
    { ctx with times := insertSet ctx.times nf }
  else ctx

/-- Currency-format sample step (src/app.py lines 212-213): capped at 10. -/
def stepCurrencies (nf : String) (ctx : PyContext) : PyContext :=
  if ctx.currencies.length < 10 && currencyIn nf then
    { ctx with currencies := insertSet ctx.currencies nf }
  else ctx

/-- Non-default number-format step (src/app.py lines 215-216): capped at
`max_items`. -/
def stepFormats (maxItems : Nat) (nf : String) (ctx : PyContext) : PyContext :=
  if ctx.cellFormats.length < maxItems && !(nf == "General") then
    { ctx with cellFormats := insertSet ctx.cellFormats nf }
  else ctx

/-- Repeated-term counting step (src/app.py lines 219-221): strings with
length in [2, 100], dict capped at `max_items` distinct keys (an
increment of an existing key is also skipped once the cap is filled). -/
def stepTerms (maxItems : Nat) (value : String) (ctx : PyContext) : PyContext :=
  if value.length > 1 && value.length ≤ 100 then
    if ctx.repeatedTerms.length < maxItems then
      { ctx with repeatedTerms := bumpTerm ctx.repeatedTerms value }
    else ctx
  else ctx

/-- Per-cell pattern analysis (src/app.py lines 194-221), for a sampled
cell with truthy value.  The four number-format steps run only when the
format string is truthy. -/
def analyzeCell (maxItems : Nat) (cell : ACell) (value : String)
    (ctx : PyContext) : PyContext :=
  let ctx := stepFormulas maxItems value ctx
  let ctx := stepBullets value ctx
  let ctx :=
    if !(cell.numberFormat == "") then
      let ctx := stepDates cell.numberFormat ctx
      let ctx := stepTimes cell.numberFormat ctx
      let ctx := stepCurrencies cell.numberFormat ctx
      stepFormats maxItems cell.numberFormat ctx
    else ctx
  stepTerms maxItems value ctx

/-- Header-row scan (src/app.py lines 178-180): the first `max_items`
cells of row 1. -/
def headerScan (maxItems : Nat) (row : List ACell) (ctx : PyContext) : PyContext :=
  (row.take maxItems).foldl
    (fun ctx c =>
      match c.value with
      | some v => { ctx with headers := insertSet ctx.headers v }
      | none => ctx)
    ctx

/-- First-column scan (src/app.py lines 183-185): `row[0]` of the first
`max_items` rows.  (An empty row would raise `IndexError` there and
abort the whole analysis to the empty-context fallback; rows from
`iter_rows` are never empty, so the embedding skips them.) -/
def rowHeaderScan (maxItems : Nat) (rows : List (List ACell))
    (ctx : PyContext) : PyContext :=
  (rows.take maxItems).foldl
    (fun ctx row =>
      match row with
      | [] => ctx
      | c :: _ =>
        match c.value with
        | some v => { ctx with rowHeaders := insertSet ctx.rowHeaders v }
        | none => ctx)
    ctx

/-- The sampled pattern scan (src/app.py lines 192-221).  The
per-cell-sampling coin `random.random() < sampling_rate` is modelled by
the oracle `coins`, consulted at a running counter that advances once
per truthy-valued cell (Python short-circuits `cell.value and
random.random() < rate`). -/
def patternScanRows (maxItems : Nat) (coins : Nat → Bool)
    (rows : List (List ACell)) (start : PyContext × Nat) : PyContext × Nat :=
  rows.foldl
    (fun acc row =>
      row.foldl
        (fun acc2 cell =>
          match cell.value with
          | none => acc2
          | some v =>
            if coins acc2.2 then (analyzeCell maxItems cell v acc2.1, acc2.2 + 1)
            else (acc2.1, acc2.2 + 1))
        acc)
    start

/-- Per-sheet analysis (src/app.py lines 176-221): header row, first
column, then the (possibly row-sampled) pattern scan.  `random.sample`
is modelled by the arbitrary row-selection oracle `rowSel`, applied only
in sampling mode. -/
def analyzeSheet (maxItems : Nat) (sampling : Bool)
    (rowSel : List (List ACell) → List (List ACell)) (coins : Nat → Bool)
    (sheet : ASheet) (acc : PyContext × Nat) : PyContext × Nat :=
  let ctx := headerScan maxItems (sheet.rows.headD []) acc.1
  let ctx := rowHeaderScan maxItems sheet.rows ctx
  let rows := if sampling then rowSel sheet.rows else sheet.rows
  patternScanRows maxItems coins rows (ctx, acc.2)

/-- Stable descending insertion by count. -/
def insertTermDesc (p : String × Nat) : List (String × Nat) → List (String × Nat)
  | [] => [p]
  | q :: rest => if p.2 ≤ q.2 then q :: insertTermDesc p rest else p :: q :: rest

/-- Python `sorted(key=lambda x: x[1], reverse=True)`: stable descending
sort by count. -/
def sortTermsDesc : List (String × Nat) → List (String × Nat)
  | [] => []
  | p :: rest => insertTermDesc p (sortTermsDesc rest)

/-- The finalisation of src/app.py lines 227-237: keep repeated terms
with frequency above 1, sorted by descending count and truncated to
`max_items`; materialise every set field as a list truncated to
`max_items`. -/
def finalizeContext (maxItems : Nat) (ctx : PyContext) : PyContext :=
  { headers := ctx.headers.take maxItems
    rowHeaders := ctx.rowHeaders.take maxItems
    dates := ctx.dates.take maxItems
    times := ctx.times.take maxItems
    formulas := ctx.formulas.take maxItems
    currencies := ctx.currencies.take maxItems
    bulletTypes := ctx.bulletTypes.take maxItems
    cellFormats := ctx.cellFormats.take maxItems
    repeatedTerms :=
      (sortTermsDesc (ctx.repeatedTerms.filter (fun p => p.2 > 1))).take maxItems }

/-- Embedding of `analyze_excel_structure(workbook, max_items)`
(src/app.py lines 153-244): total cell count decides sampling mode, each
sheet is scanned, and the context is finalised.  The per-cell
`try`/`except` is vacuous in the embedding (no modelled operation
raises); the outer exception fallback (lines 241-244) returns empty
collections and is subsumed, for the cap claims, by the bounds proved
below. -/
def analyze_excel_structure (wb : List ASheet) (maxItems : Nat)
    (rowSel : List (List ACell) → List (List ACell)) (coins : Nat → Bool) :
    PyContext :=
  let total := (wb.map (fun s => s.maxRow * s.maxCol)).foldl (· + ·) 0
  let sampling := total > 10000
  let r := wb.foldl (fun acc sh => analyzeSheet maxItems sampling rowSel coins sh acc)
    (emptyContext, 0)
  finalizeContext maxItems r.1

/-- The numeric-token rule as the spec words it (§4.2): a string that is
empty after stripping digits, `.`, `/` and `-`.  This definition follows
the spec's words, to be compared with the source's `is_numeric_string`. -/
def specNumericStrip (s : String) : Bool :=
  (s.toList.filter (fun c => !(c.isDigit || c == '.' || c == '/' || c == '-'))).isEmpty

/-- An oracle on which every backend call fails (here: raises). -/
def failOracle : Nat → BackendResult := fun _ => BackendResult.err

/-- An oracle whose first attempt succeeds with the single segment `"x"`
and whose later attempts succeed with `"T"`. -/
def c1Oracle : Nat → BackendResult :=
  fun k => if k == 0 then BackendResult.ok "x" else BackendResult.ok "T"

/-- A non-merged source cell holding a string, with no style. -/
def mkStrCell (r c : Nat) (s : String) : SrcCell :=
  ⟨r, c, some (CellValue.str s), false, defaultStyle, false⟩

/-- A sheet holding a single string cell at row 1, column 1. -/
def strCellSheet (s : String) : SrcSheet := ⟨[mkStrCell 1 1 s], [], [], []⟩

/-- An oracle that always succeeds with the text `TRANSLATED`. -/
def c2Oracle : Nat → BackendResult := fun _ => BackendResult.ok "TRANSLATED"

/-- An 11-cell sheet in which the literal string `"dup"` appears twice:
in cell (1,1) and in cell (1,11).  With `BATCH_SIZE = 10` the two
occurrences land in different batches. -/
def c3Sheet : SrcSheet :=
  ⟨[mkStrCell 1 1 "dup", mkStrCell 1 2 "b2", mkStrCell 1 3 "b3",
    mkStrCell 1 4 "b4", mkStrCell 1 5 "b5", mkStrCell 1 6 "b6",
    mkStrCell 1 7 "b7", mkStrCell 1 8 "b8", mkStrCell 1 9 "b9",
    mkStrCell 1 10 "b10", mkStrCell 1 11 "dup"], [], [], []⟩

/-- A well-formed 10-segment response for the first batch of
`c3Sheet`. -/
def c3Resp : String :=
  joinSent ["S1", "S2", "S3", "S4", "S5", "S6", "S7", "S8", "S9", "S10"]

/-- An oracle answering the first batch with `c3Resp` and every later
attempt with `"TB"`. -/
def c3Oracle : Nat → BackendResult :=
  fun k => if k == 0 then BackendResult.ok c3Resp else BackendResult.ok "TB"

/-- A cell text that contains the batch sentinel. -/
def c4Text : String := "a\n---SPLIT---\nb"

/-- A styled non-anchor member cell of a merge group (openpyxl
`MergedCell` instances carry their own style). -/
def c5MemberCell : SrcCell := ⟨1, 2, none, true, ⟨1, 2, 3, 4, 5, 6⟩, true⟩

/-- A sheet with a merge A1:B1 whose member cell B1 is styled. -/
def c5Sheet : SrcSheet :=
  ⟨[mkStrCell 1 1 "anchor", c5MemberCell], [], [], [⟨1, 1, 1, 2⟩]⟩

/-- A styled ordinary cell used to witness the amended style claim. -/
def w5Cell : SrcCell := ⟨2, 3, some (CellValue.num 7), true, ⟨9, 8, 7, 6, 5, 4⟩, false⟩

/-- A one-cell sheet for the style witness. -/
def w5Sheet : SrcSheet := ⟨[w5Cell], [], [], [⟨4, 1, 5, 2⟩]⟩

/-- Three distinct batch texts for the retry-structure counterexample. -/
def c6Texts : List String := ["aa", "bb", "cc"]

/-- The sub-cap invariant maintained throughout the analyzer scan: the
four sample sets guarded by `len < 10` never exceed 10 entries. -/
def SubCapInv (ctx : PyContext) : Prop :=
  ctx.bulletTypes.length ≤ 10 ∧ ctx.dates.length ≤ 10 ∧
  ctx.times.length ≤ 10 ∧ ctx.currencies.length ≤ 10


/-- The result list `process_cell_batch` produces when every backend
attempt fails: the echoed combined text splits back into the original
unique strings, so every cell is paired with its own text. -/
def echoResults (batch : List ((Nat × Nat) × String)) :
    List ((Nat × Nat) × String) :=
  (((keysOf batch).zip (keysOf batch)).map
    (fun kt => (groupCells batch kt.1).map (fun c => (c, kt.2)))).flatten


theorem process_excel_fold_src (oracle : Nat → BackendResult) :
    ∀ (l : List SrcSheet) (acc : PipeState),
      (l.foldl (fun acc sh =>
        let r := process_sheet oracle sh acc.log
        { acc with dstSheets := acc.dstSheets ++ [r.1], log := r.2 }) acc).srcSheets
        = acc.srcSheets := by
  intro l
  induction l with
  | nil => intro acc; rfl
  | cons x xs ih => intro acc; rw [List.foldl_cons, ih]

/-- C9: the pipeline never mutates the source workbook — after
`process_excel` completes, the source component of the run state (cell
values, styles, dimensions and merge ranges of every source sheet) is
unchanged; every write of the transcribed pipeline targets the
destination workbook or the log. -/
theorem c9_source_not_mutated (oracle : Nat → BackendResult) (st : PipeState) :
    (process_excel oracle st).srcSheets = st.srcSheets := by
  unfold process_excel
  rw [process_excel_fold_src]

/-- C8: the destination sheet's merge-range list equals the source
sheet's exactly, for every sheet and every backend behaviour.  (When the
source has no merges, the truthiness guard on src/app.py line 429 skips
the copy, and the fresh destination sheet likewise has no merges.) -/
theorem c8_merge_ranges_preserved (oracle : Nat → BackendResult)
    (src : SrcSheet) (log : List String) :
    (process_sheet oracle src log).1.mergedRanges = src.mergedRanges := by
  unfold process_sheet
  by_cases h : src.mergedRanges.isEmpty
  · simp only [h, if_true]
    exact (List.isEmpty_iff.mp h).symm
  · simp only [Bool.not_eq_true] at h
    simp [h]

/-- C1 (code bug): with two input texts and a backend whose first
attempt succeeds with the single segment `"x"`, `batch_translate`
returns a list of length 1, not `len(texts) = 2` — the
`zip(original_texts, valid_translations)` in `retry_failed_translations`
stops at the shorter list and silently drops the trailing texts instead
of retrying them as the comment on src/app.py line 91 announces. -/
theorem c1_batch_translate_drops_missing :
    batch_translate c1Oracle ["a", "b"] [] = (["x"], ["a\n---SPLIT---\nb"]) ∧
    (batch_translate c1Oracle ["a", "b"] []).1.length = 1 := by
  constructor
  · rfl
  · rfl

/-- C2 (code bug): a formula cell `=SUM(A1:A3)` is collected into
`cells_to_process`, one backend attempt carries it (the log holds the
formula text), and the destination cell receives the backend's output
instead of the unchanged formula; likewise the date-like token
`2024/01/01` (empty after the spec's digit/`.`/`/`/`-` stripping) is
collected and sent.  The `=` and digit-stripping short-circuits live
only in `translate_text` (src/app.py lines 254-257), which the pipeline
never calls. -/
theorem c2_formula_sent_to_backend :
    cellsToProcess (strCellSheet "=SUM(A1:A3)").cells = [((1, 1), "=SUM(A1:A3)")] ∧
    dstValueAt (process_sheet c2Oracle (strCellSheet "=SUM(A1:A3)") []).1 1 1
      = some (CellValue.str "TRANSLATED") ∧
    (process_sheet c2Oracle (strCellSheet "=SUM(A1:A3)") []).2 = ["=SUM(A1:A3)"] ∧
    specNumericStrip "2024/01/01" = true ∧
    cellsToProcess (strCellSheet "2024/01/01").cells = [((1, 1), "2024/01/01")] := by
  refine ⟨by decide, by decide, by decide, by decide, by decide⟩

/-- C3 (counterexample): in `c3Sheet` the string `"dup"` occupies cells
(1,1) and (1,11); with `BATCH_SIZE = 10` they fall into different
batches, the backend is consulted once per batch (the log has two
entries, both carrying `"dup"`), and the two cells receive different
resolved texts — refuting the per-sheet exactly-once/identical-text
claim. -/
theorem c3_counterexample :
    dstValueAt (process_sheet c3Oracle c3Sheet []).1 1 1 = some (CellValue.str "S1") ∧
    dstValueAt (process_sheet c3Oracle c3Sheet []).1 1 11 = some (CellValue.str "TB") ∧
    dstValueAt (process_sheet c3Oracle c3Sheet []).1 1 1
      ≠ dstValueAt (process_sheet c3Oracle c3Sheet []).1 1 11 ∧
    (process_sheet c3Oracle c3Sheet []).2.length = 2 := by
  refine ⟨by decide, by decide, by decide, by decide⟩

/-- C4 (counterexample): with a backend on which every call fails
(`failOracle` always raises) and a single translatable cell whose text
contains the batch sentinel, the destination cell receives `"a"`, not
its input text `"a\n---SPLIT---\nb"`: splitting the echoed original on
the sentinel misaligns the fallback. -/
theorem c4_counterexample :
    dstValueAt (process_sheet failOracle (strCellSheet c4Text) []).1 1 1
      = some (CellValue.str "a") ∧
    dstValueAt (process_sheet failOracle (strCellSheet c4Text) []).1 1 1
      ≠ some (CellValue.str c4Text) := by
  refine ⟨by decide, by decide⟩

/-- C5 (counterexample): the styled non-anchor member cell (1,2) of the
merge group in `c5Sheet` is skipped by `process_sheet` (src/app.py line
436), so the destination holds no cell there and its style is the
default, not the member's own style. -/
theorem c5_counterexample :
    dstStyleAt (process_sheet failOracle c5Sheet []).1 1 2 = defaultStyle ∧
    c5MemberCell.style ≠ defaultStyle ∧
    dstStyleAt (process_sheet failOracle c5Sheet []).1 1 2 ≠ c5MemberCell.style := by
  refine ⟨by decide, by decide, by decide⟩

/-- C6 (counterexample): a first-attempt success whose segment count
(1) differs from the batch's unique-string count (3) triggers the
fallback path immediately — the run makes exactly one backend attempt
(the log has one entry), so the whole batch is not retried 3 times
before fallback; moreover the fallback reuses the garbled segment and
returns `["x"]` without any individual translation. -/
theorem c6_counterexample :
    batch_translate c1Oracle c6Texts []
      = (["x"], ["aa\n---SPLIT---\nbb\n---SPLIT---\ncc"]) ∧
    (batch_translate c1Oracle c6Texts []).2.length = 1 := by
  exact ⟨rfl, rfl⟩

/-- C10 (counterexample): the exclusion-iff-float claim fails at the
empty string (excluded from translation, yet `float('')` fails), and the
float rule is not broader than the spec's stripping rule: `"1/2"` is
empty after stripping digits/`.`/`/`/`-` but `float` rejects it. -/
theorem c10_counterexample :
    translatableText (some (CellValue.str "")) = none ∧
    is_numeric_string "" = false ∧
    specNumericStrip "1/2" = true ∧
    is_numeric_string "1/2" = false := by
  refine ⟨rfl, rfl, rfl, rfl⟩

/-- C10 (amended): a *nonempty* cell string value is excluded from
translation (no backend call; the text is copied unchanged) if and only
if, after removing every `,`, `$`, `%` and surrounding whitespace, the
remainder parses as a Python float — a rule that accepts exponent forms
(`1e5`) and the tokens `inf`/`nan` which the spec's digit/`.`/`/`/`-`
stripping rule rejects, but is incomparable with that rule rather than
broader: it rejects `1/2`, which the stripping rule accepts.  (Empty
strings are also excluded, by the truthiness test, though `float('')`
fails.) -/
theorem c10_numeric_exclusion :
    (∀ s : String, s ≠ "" →
      (cellsToProcess (strCellSheet s).cells = [] ↔
        pyFloatParses (pyStrip (removeFmtChars s)) = true)) ∧
    is_numeric_string "1e5" = true ∧ specNumericStrip "1e5" = false ∧
    is_numeric_string "inf" = true ∧ is_numeric_string "nan" = true ∧
    specNumericStrip "1/2" = true ∧ is_numeric_string "1/2" = false := by
  refine ⟨?_, by decide, by decide, by decide, by decide, by decide, by decide⟩
  intro s hs
  have hs' : (s == "") = false := by
    simpa using hs
  rw [show pyFloatParses (pyStrip (removeFmtChars s)) = is_numeric_string s from rfl]
  cases h : is_numeric_string s
  · simp [cellsToProcess, strCellSheet, mkStrCell, translatableText, hs', hs, h]
  · simp [cellsToProcess, strCellSheet, mkStrCell, translatableText, hs', hs, h]

/-- Witness for the amended C10 at the concrete numeric token
`1,234.56`. -/
theorem c10_numeric_exclusion_witness :
    cellsToProcess (strCellSheet "1,234.56").cells = [] ↔
      pyFloatParses (pyStrip (removeFmtChars "1,234.56")) = true :=
  c10_numeric_exclusion.1 "1,234.56" (by decide)

theorem insertSet_le (l : List String) (x : String) (cap : Nat)
    (h : l.length < cap) : (insertSet l x).length ≤ cap := by
  unfold insertSet
  split
  · omega
  · simp only [List.length_append, List.length_cons, List.length_nil]
    omega

theorem stepFormulas_sub (m : Nat) (v : String) (ctx : PyContext)
    (h : SubCapInv ctx) : SubCapInv (stepFormulas m v ctx) := by
  unfold stepFormulas
  split
  · exact h
  · exact h

theorem stepBullets_sub (v : String) (ctx : PyContext)
    (h : SubCapInv ctx) : SubCapInv (stepBullets v ctx) := by
  unfold stepBullets
  split
  · rename_i hc
    simp only [Bool.and_eq_true, decide_eq_true_eq] at hc
    exact ⟨insertSet_le _ _ _ hc.1, h.2.1, h.2.2.1, h.2.2.2⟩
  · exact h

theorem stepDates_sub (nf : String) (ctx : PyContext)
    (h : SubCapInv ctx) : SubCapInv (stepDates nf ctx) := by
  unfold stepDates
  split
  · rename_i hc
    simp only [Bool.and_eq_true, decide_eq_true_eq] at hc
    exact ⟨h.1, insertSet_le _ _ _ hc.1, h.2.2.1, h.2.2.2⟩
  · exact h

theorem stepTimes_sub (nf : String) (ctx : PyContext)
    (h : SubCapInv ctx) : SubCapInv (stepTimes nf ctx) := by
  unfold stepTimes
  split
  · rename_i hc
    simp only [Bool.and_eq_true, decide_eq_true_eq] at hc
    exact ⟨h.1, h.2.1, insertSet_le _ _ _ hc.1, h.2.2.2⟩
  · exact h

theorem stepCurrencies_sub (nf : String) (ctx : PyContext)
    (h : SubCapInv ctx) : SubCapInv (stepCurrencies nf ctx) := by
  unfold stepCurrencies
  split
  · rename_i hc
    simp only [Bool.and_eq_true, decide_eq_true_eq] at hc
    exact ⟨h.1, h.2.1, h.2.2.1, insertSet_le _ _ _ hc.1⟩
  · exact h

theorem stepFormats_sub (m : Nat) (nf : String) (ctx : PyContext)
    (h : SubCapInv ctx) : SubCapInv (stepFormats m nf ctx) := by
  unfold stepFormats
  split
  · exact h
  · exact h

theorem stepTerms_sub (m : Nat) (v : String) (ctx : PyContext)
    (h : SubCapInv ctx) : SubCapInv (stepTerms m v ctx) := by
  unfold stepTerms
  split
  · split
    · exact h
    · exact h
  · exact h

theorem analyzeCell_sub (m : Nat) (cell : ACell) (v : String)
    (ctx : PyContext) (h : SubCapInv ctx) :
    SubCapInv (analyzeCell m cell v ctx) := by
  unfold analyzeCell
  apply stepTerms_sub
  split
  · exact stepFormats_sub _ _ _ (stepCurrencies_sub _ _
      (stepTimes_sub _ _ (stepDates_sub _ _
        (stepBullets_sub _ _ (stepFormulas_sub _ _ _ h)))))
  · exact stepBullets_sub _ _ (stepFormulas_sub _ _ _ h)

theorem headerScan_sub (m : Nat) (row : List ACell) (ctx : PyContext)
    (h : SubCapInv ctx) : SubCapInv (headerScan m row ctx) := by
  unfold headerScan
  generalize row.take m = r
  induction r generalizing ctx with
  | nil => exact h
  | cons c cs ih =>
    rw [List.foldl_cons]
    apply ih
    cases hv : c.value
    · simpa [hv] using h
    · simpa [hv] using h

theorem rowHeaderScan_sub (m : Nat) (rows : List (List ACell))
    (ctx : PyContext) (h : SubCapInv ctx) :
    SubCapInv (rowHeaderScan m rows ctx) := by
  unfold rowHeaderScan
  generalize rows.take m = r
  induction r generalizing ctx with
  | nil => exact h
  | cons row rest ih =>
    rw [List.foldl_cons]
    apply ih
    cases row with
    | nil => exact h
    | cons c cs =>
      cases hv : c.value
      · simpa [hv] using h
      · simpa [hv] using h

theorem patternScanRows_sub (m : Nat) (coins : Nat → Bool) :
    ∀ (rows : List (List ACell)) (start : PyContext × Nat),
      SubCapInv start.1 → SubCapInv (patternScanRows m coins rows start).1 := by
  intro rows
  unfold patternScanRows
  induction rows with
  | nil => intro start h; exact h
  | cons row rest ih =>
    intro start h
    rw [List.foldl_cons]
    apply ih
    induction row generalizing start with
    | nil => exact h
    | cons c cs ih2 =>
      rw [List.foldl_cons]
      apply ih2
      cases hv : c.value with
      | none => simpa [hv] using h
      | some v =>
        simp only [hv]
        split
        · exact analyzeCell_sub _ _ _ _ h
        · exact h

theorem analyzeSheet_sub (m : Nat) (sampling : Bool)
    (rowSel : List (List ACell) → List (List ACell)) (coins : Nat → Bool)
    (sheet : ASheet) (acc : PyContext × Nat) (h : SubCapInv acc.1) :
    SubCapInv (analyzeSheet m sampling rowSel coins sheet acc).1 := by
  unfold analyzeSheet
  apply patternScanRows_sub
  exact rowHeaderScan_sub _ _ _ (headerScan_sub _ _ _ h)

/-- C7: every field of the analyzer's context respects its cap — at most
`max_items` entries for headers, row headers, formulas, cell formats and
repeated terms, and at most 10 entries for bullet markers and the date,
time and currency format samples — for every workbook, every sampling
decision and every cap value. -/
theorem c7_context_caps (wb : List ASheet) (maxItems : Nat)
    (rowSel : List (List ACell) → List (List ACell)) (coins : Nat → Bool) :
    (analyze_excel_structure wb maxItems rowSel coins).headers.length ≤ maxItems ∧
    (analyze_excel_structure wb maxItems rowSel coins).rowHeaders.length ≤ maxItems ∧
    (analyze_excel_structure wb maxItems rowSel coins).formulas.length ≤ maxItems ∧
    (analyze_excel_structure wb maxItems rowSel coins).cellFormats.length ≤ maxItems ∧
    (analyze_excel_structure wb maxItems rowSel coins).repeatedTerms.length ≤ maxItems ∧
    (analyze_excel_structure wb maxItems rowSel coins).bulletTypes.length ≤ 10 ∧
    (analyze_excel_structure wb maxItems rowSel coins).dates.length ≤ 10 ∧
    (analyze_excel_structure wb maxItems rowSel coins).times.length ≤ 10 ∧
    (analyze_excel_structure wb maxItems rowSel coins).currencies.length ≤ 10 := by
  have key : ∀ (sampling : Bool) (l : List ASheet) (start : PyContext × Nat),
      SubCapInv start.1 →
      SubCapInv (l.foldl
        (fun acc sh => analyzeSheet maxItems sampling rowSel coins sh acc) start).1 := by
    intro sampling l
    induction l with
    | nil => intro start h; exact h
    | cons sh rest ih =>
      intro start h
      rw [List.foldl_cons]
      exact ih _ (analyzeSheet_sub _ _ _ _ _ _ h)
  have hempty : SubCapInv (emptyContext, 0).1 :=
    ⟨Nat.zero_le _, Nat.zero_le _, Nat.zero_le _, Nat.zero_le _⟩
  have hscan := key
    (decide ((wb.map (fun s => s.maxRow * s.maxCol)).foldl (· + ·) 0 > 10000))
    wb (emptyContext, 0) hempty
  simp only [analyze_excel_structure, finalizeContext]
  refine ⟨?_, ?_, ?_, ?_, ?_, ?_, ?_, ?_, ?_⟩ <;> simp only [List.length_take]
  · exact min_le_left _ _
  · exact min_le_left _ _
  · exact min_le_left _ _
  · exact min_le_left _ _
  · exact min_le_left _ _
  · exact le_trans (min_le_right _ _) hscan.1
  · exact le_trans (min_le_right _ _) hscan.2.1
  · exact le_trans (min_le_right _ _) hscan.2.2.1
  · exact le_trans (min_le_right _ _) hscan.2.2.2

theorem replicate_snoc_append (log : List String) (text : String) (n : Nat) :
    (log ++ [text]) ++ List.replicate n text = log ++ List.replicate (n + 1) text := by
  rw [List.append_assoc, List.singleton_append, ← List.replicate_succ]

theorem twcLoop_attempts (oracle : Nat → BackendResult) (text : String) :
    ∀ (k : Nat) (log : List String), 1 ≤ k →
      ∃ n r, 1 ≤ n ∧ n ≤ k ∧
        twcLoop oracle text k log = (r, log ++ List.replicate n text) := by
  intro k
  induction k with
  | zero => intro log h; omega
  | succ m ih =>
    intro log _
    cases m with
    | zero =>
      cases h : oracle log.length with
      | ok s =>
        by_cases hs : s = ""
        · exact ⟨1, text, le_refl 1, le_refl 1, by simp [twcLoop, h, hs]⟩
        · exact ⟨1, pyStrip s, le_refl 1, le_refl 1, by simp [twcLoop, h, hs]⟩
      | err => exact ⟨1, text, le_refl 1, le_refl 1, by simp [twcLoop, h]⟩
      | badStatus => exact ⟨1, text, le_refl 1, le_refl 1, by simp [twcLoop, h]⟩
      | emptyResp => exact ⟨1, text, le_refl 1, le_refl 1, by simp [twcLoop, h]⟩
    | succ m2 =>
      have step : ∀ res : String × List String,
          twcLoop oracle text (m2 + 1) (log ++ [text]) = res →
          (∃ n r, 1 ≤ n ∧ n ≤ m2 + 2 ∧ res = (r, log ++ List.replicate n text)) := by
        intro res hres
        obtain ⟨n, r, hn1, hn2, he⟩ := ih (log ++ [text]) (by omega)
        refine ⟨n + 1, r, by omega, by omega, ?_⟩
        rw [← hres, he, replicate_snoc_append]
      cases h : oracle log.length with
      | ok s =>
        by_cases hs : s = ""
        · have := step _ rfl
          simpa [twcLoop, h, hs] using this
        · refine ⟨1, pyStrip s, le_refl 1, by omega, ?_⟩
          simp [twcLoop, h, hs]
      | err => have := step _ rfl; simpa [twcLoop, h] using this
      | badStatus => have := step _ rfl; simpa [twcLoop, h] using this
      | emptyResp => have := step _ rfl; simpa [twcLoop, h] using this

/-- C6 (amended): each backend text (a combined batch or an individual
string) is attempted at most `MAX_RETRIES = 3` times consecutively,
with no delay between attempts (the `time.sleep(1)` on src/app.py line
360 is unreachable); and a first-attempt success whose segment count
differs from the batch's text count is handed to the individual-fallback
path immediately, after exactly one batch attempt — the batch itself is
only re-attempted (inside `translate_with_context`) on backend
error/timeout, non-200 status, or empty response. -/
theorem c6_retry_structure :
    (∀ (oracle : Nat → BackendResult) (text : String) (log : List String),
        text ≠ "" →
        ∃ n r, 1 ≤ n ∧ n ≤ MAX_RETRIES ∧
          translate_with_context oracle text log
            = (r, log ++ List.replicate n text)) ∧
    (∀ (oracle : Nat → BackendResult) (texts : List String)
        (log : List String) (s : String),
        joinSent texts ≠ "" →
        oracle log.length = BackendResult.ok s →
        pyStrip s ≠ "" →
        (splitSent (pyStrip s)).length ≠ texts.length →
        batch_translate oracle texts log
          = retry_failed_translations oracle texts (some (splitSent (pyStrip s)))
              (log ++ [joinSent texts])) := by
  constructor
  · intro oracle text log htext
    have h1 : (text == "") = false := by simpa using htext
    unfold translate_with_context
    rw [h1]
    simpa using twcLoop_attempts oracle text MAX_RETRIES log (by decide)
  · intro oracle texts log s hjoin hok hstrip hlen
    have htexts : texts ≠ [] := by
      intro h
      apply hjoin
      rw [h]
      rfl
    have htexts' : (texts == []) = false := by simpa using htexts
    have hjoin' : (joinSent texts == "") = false := by simpa using hjoin
    have hs : (s == "") = false := by
      have : s ≠ "" := by
        intro h
        apply hstrip
        rw [h]
        rfl
      simpa using this
    have hstrip' : (pyStrip s == "") = false := by simpa using hstrip
    have hlen' : ((splitSent (pyStrip s)).length == texts.length) = false := by
      simpa using hlen
    have htwc : twcLoop oracle (joinSent texts) MAX_RETRIES log
        = (pyStrip s, log ++ [joinSent texts]) := by
      show twcLoop oracle (joinSent texts) 3 log = _
      have hs2 : s ≠ "" := by simpa using hs
      simp [twcLoop, hok, hs2]
    simp only [batch_translate, translate_with_context, htexts', hjoin',
      Bool.false_eq_true, if_false, htwc, hstrip', hlen']
    simp

/-- Witness for the amended C6: with the all-failing oracle the text
`hello` is attempted between 1 and 3 times; and with `c1Oracle` the
two-text batch is handed to the fallback after exactly one attempt. -/
theorem c6_retry_structure_witness :
    (∃ n r, 1 ≤ n ∧ n ≤ MAX_RETRIES ∧
        translate_with_context failOracle "hello" []
          = (r, [] ++ List.replicate n "hello")) ∧
    batch_translate c1Oracle ["a", "b"] []
      = retry_failed_translations c1Oracle ["a", "b"]
          (some (splitSent (pyStrip "x"))) ([] ++ [joinSent ["a", "b"]]) :=
  ⟨c6_retry_structure.1 failOracle "hello" [] (by decide),
   c6_retry_structure.2 c1Oracle ["a", "b"] [] "x" (by decide) rfl (by decide)
     (by decide)⟩

theorem dedupAux_mem : ∀ (fuel : Nat) (l : List String), l.length ≤ fuel →
    ∀ x, x ∈ dedupAux fuel l ↔ x ∈ l := by
  intro fuel
  induction fuel with
  | zero =>
    intro l hl x
    cases l with
    | nil => exact Iff.rfl
    | cons a as => simp at hl
  | succ f ih =>
    intro l hl x
    cases l with
    | nil => exact Iff.rfl
    | cons a as =>
      have hlen : (as.filter (fun y => !(y == a))).length ≤ f := by
        have hf := List.length_filter_le (fun y => !(y == a)) as
        simp only [List.length_cons] at hl
        omega
      simp only [dedupAux, List.mem_cons]
      constructor
      · intro h
        rcases h with h | h
        · exact Or.inl h
        · have hm := (ih _ hlen x).mp h
          exact Or.inr (List.mem_filter.mp hm).1
      · intro h
        rcases h with h | h
        · exact Or.inl h
        · by_cases hx : x = a
          · exact Or.inl hx
          · refine Or.inr ((ih _ hlen x).mpr (List.mem_filter.mpr ⟨h, ?_⟩))
            simpa using hx

theorem dedupAux_nodup : ∀ (fuel : Nat) (l : List String), l.length ≤ fuel →
    (dedupAux fuel l).Nodup := by
  intro fuel
  induction fuel with
  | zero =>
    intro l hl
    cases l with
    | nil => exact List.nodup_nil
    | cons a as => simp at hl
  | succ f ih =>
    intro l hl
    cases l with
    | nil => exact List.nodup_nil
    | cons a as =>
      have hlen : (as.filter (fun y => !(y == a))).length ≤ f := by
        have hf := List.length_filter_le (fun y => !(y == a)) as
        simp only [List.length_cons] at hl
        omega
      simp only [dedupAux]
      refine List.nodup_cons.mpr ⟨?_, ih _ hlen⟩
      intro hmem
      have := (List.mem_filter.mp ((dedupAux_mem f _ hlen a).mp hmem)).2
      simp at this

theorem dedupFirst_mem (l : List String) (x : String) :
    x ∈ dedupFirst l ↔ x ∈ l :=
  dedupAux_mem l.length l (le_refl _) x

theorem dedupFirst_nodup (l : List String) : (dedupFirst l).Nodup :=
  dedupAux_nodup l.length l (le_refl _)

theorem keysOf_nodup (batch : List ((Nat × Nat) × String)) :
    (keysOf batch).Nodup :=
  dedupFirst_nodup _

theorem keysOf_mem (batch : List ((Nat × Nat) × String)) (s : String) :
    s ∈ keysOf batch ↔ (s ∈ batch.map (fun x => x.2) ∧ s ≠ "") := by
  unfold keysOf
  rw [dedupFirst_mem, List.mem_filter]
  simp

theorem zip_nodup_functional {α β : Type} :
    ∀ (ks : List α) (vs : List β) (a : α) (b1 b2 : β), ks.Nodup →
      (a, b1) ∈ ks.zip vs → (a, b2) ∈ ks.zip vs → b1 = b2 := by
  intro ks
  induction ks with
  | nil => intro vs a b1 b2 _ h; simp at h
  | cons k kt ih =>
    intro vs a b1 b2 hnd h1 h2
    cases vs with
    | nil => simp at h1
    | cons v vt =>
      have hk := List.nodup_cons.mp hnd
      simp only [List.zip_cons_cons, List.mem_cons] at h1 h2
      rcases h1 with h1 | h1 <;> rcases h2 with h2 | h2
      · rw [Prod.mk.injEq] at h1 h2
        rw [h1.2, h2.2]
      · exfalso
        rw [Prod.mk.injEq] at h1
        exact hk.1 (by rw [← h1.1]; exact (List.of_mem_zip h2).1)
      · exfalso
        rw [Prod.mk.injEq] at h2
        exact hk.1 (by rw [← h2.1]; exact (List.of_mem_zip h1).1)
      · exact ih vt a b1 b2 hk.2 h1 h2

theorem groupCells_mem (batch : List ((Nat × Nat) × String)) (t : String)
    (p : Nat × Nat) : p ∈ groupCells batch t ↔ (p, t) ∈ batch := by
  unfold groupCells
  rw [List.mem_filterMap]
  constructor
  · rintro ⟨x, hx, he⟩
    by_cases h : x.2 = t
    · have hp : x.1 = p := by simpa [h] using he
      have hxe : x = (p, t) := by
        rw [← hp, ← h]
      rw [← hxe]
      exact hx
    · simp [h] at he
  · intro h
    exact ⟨(p, t), h, by simp⟩

theorem pcb_mem (oracle : Nat → BackendResult)
    (batch : List ((Nat × Nat) × String)) (log : List String)
    (p : Nat × Nat) (t : String) :
    (p, t) ∈ (process_cell_batch oracle batch log).1 ↔
      ∃ kt ∈ (keysOf batch).zip
          (batch_translate oracle (keysOf batch) log).1,
        kt.2 = t ∧ (p, kt.1) ∈ batch := by
  unfold process_cell_batch
  simp only [List.mem_flatten, List.mem_map]
  constructor
  · rintro ⟨l, ⟨kt, hkt, rfl⟩, hm⟩
    rcases List.mem_map.mp hm with ⟨c, hc, he⟩
    rw [Prod.mk.injEq] at he
    refine ⟨kt, hkt, he.2, ?_⟩
    rw [← he.1]
    exact (groupCells_mem _ _ _).mp hc
  · rintro ⟨kt, hkt, ht, hb⟩
    refine ⟨(groupCells batch kt.1).map (fun c => (c, kt.2)), ⟨kt, hkt, rfl⟩, ?_⟩
    rw [List.mem_map]
    exact ⟨p, (groupCells_mem _ _ _).mpr hb, by rw [ht]⟩

/-- C3 (amended): deduplication holds within one batch of
`BATCH_SIZE = 10` consecutive translatable cells — the batch's combined
request carries each distinct string exactly once (`keysOf` is
duplicate-free), and any two cells of the batch holding the same string
receive identical resolved text; across batches the same string is sent
again and may resolve differently (see the counterexample). -/
theorem c3_within_batch_consistency :
    (∀ batch : List ((Nat × Nat) × String), (keysOf batch).Nodup) ∧
    (∀ (oracle : Nat → BackendResult) (batch : List ((Nat × Nat) × String))
        (log : List String) (p q : Nat × Nat) (s t1 t2 : String),
        (∀ x ∈ batch, x.1 = p → x.2 = s) →
        (∀ x ∈ batch, x.1 = q → x.2 = s) →
        (p, t1) ∈ (process_cell_batch oracle batch log).1 →
        (q, t2) ∈ (process_cell_batch oracle batch log).1 →
        t1 = t2) := by
  refine ⟨keysOf_nodup, ?_⟩
  intro oracle batch log p q s t1 t2 hpu hqu h1 h2
  rcases (pcb_mem oracle batch log p t1).mp h1 with ⟨kt1, hz1, he1, hb1⟩
  rcases (pcb_mem oracle batch log q t2).mp h2 with ⟨kt2, hz2, he2, hb2⟩
  have hk1 : kt1.1 = s := hpu _ hb1 rfl
  have hk2 : kt2.1 = s := hqu _ hb2 rfl
  rw [← he1, ← he2]
  refine zip_nodup_functional (keysOf batch)
    (batch_translate oracle (keysOf batch) log).1 s kt1.2 kt2.2
    (keysOf_nodup batch) ?_ ?_
  · rw [← hk1]
    exact hz1
  · rw [← hk2]
    exact hz2

/-- Witness for the amended C3: in a two-cell batch sharing the string
`dup`, both cells receive the identical text `TRANSLATED`. -/
theorem c3_within_batch_consistency_witness :
    ((1, 1), "TRANSLATED") ∈
      (process_cell_batch c2Oracle [((1, 1), "dup"), ((1, 2), "dup")] []).1 ∧
    ((1, 2), "TRANSLATED") ∈
      (process_cell_batch c2Oracle [((1, 1), "dup"), ((1, 2), "dup")] []).1 ∧
    ("TRANSLATED" : String) = "TRANSLATED" :=
  ⟨by decide, by decide,
   c3_within_batch_consistency.2 c2Oracle [((1, 1), "dup"), ((1, 2), "dup")] []
     (1, 1) (1, 2) "dup" "TRANSLATED" "TRANSLATED"
     (by decide) (by decide) (by decide) (by decide)⟩

theorem twcLoop_fail (oracle : Nat → BackendResult) (text : String)
    (hfail : ∀ k s, oracle k ≠ BackendResult.ok s) :
    ∀ (n : Nat) (log : List String),
      twcLoop oracle text n log = (text, log ++ List.replicate n text) := by
  intro n
  induction n with
  | zero => intro log; simp [twcLoop]
  | succ m ih =>
    intro log
    cases h : oracle log.length with
    | ok s => exact absurd h (hfail _ _)
    | err => simp [twcLoop, h, ih, List.replicate_succ, List.append_assoc]
    | badStatus => simp [twcLoop, h, ih, List.replicate_succ, List.append_assoc]
    | emptyResp => simp [twcLoop, h, ih, List.replicate_succ, List.append_assoc]

theorem translate_with_context_fail (oracle : Nat → BackendResult)
    (text : String) (log : List String)
    (hfail : ∀ k s, oracle k ≠ BackendResult.ok s) (ht : text ≠ "") :
    translate_with_context oracle text log
      = (text, log ++ List.replicate 3 text) := by
  unfold translate_with_context
  rw [show (text == "") = false by simpa using ht]
  simpa using twcLoop_fail oracle text hfail MAX_RETRIES log

theorem append_ne_empty_left (a b : String) (ha : a ≠ "") : a ++ b ≠ "" := by
  intro h
  apply ha
  have hd : a.data ++ b.data = [] := by
    have h2 : (a ++ b).data = ("" : String).data := by rw [h]
    exact h2
  have ha2 : a.data = [] := (List.append_eq_nil.mp hd).1
  cases a with
  | mk d =>
    simp only at ha2
    rw [ha2]

theorem joinSent_ne_empty (x : String) (xs : List String) (hx : x ≠ "") :
    joinSent (x :: xs) ≠ "" := by
  cases xs with
  | nil => simpa [joinSent] using hx
  | cons y ys =>
    show x ++ SENTINEL ++ joinSent (y :: ys) ≠ ""
    exact append_ne_empty_left _ _ (append_ne_empty_left _ _ hx)

theorem zip_self_mem {α : Type} :
    ∀ (l : List α) (a b : α), (a, b) ∈ l.zip l → a = b := by
  intro l
  induction l with
  | nil => intro a b h; simp at h
  | cons x xs ih =>
    intro a b h
    rw [List.zip_cons_cons, List.mem_cons] at h
    rcases h with h | h
    · rw [Prod.mk.injEq] at h
      rw [h.1, h.2]
    · exact ih a b h

theorem mem_zip_self {α : Type} :
    ∀ (l : List α) (a : α), a ∈ l → (a, a) ∈ l.zip l := by
  intro l
  induction l with
  | nil => intro a h; cases h
  | cons x xs ih =>
    intro a h
    rw [List.zip_cons_cons, List.mem_cons]
    rcases List.mem_cons.mp h with h | h
    · exact Or.inl (by rw [h])
    · exact Or.inr (ih a h)

theorem batch_translate_fail (oracle : Nat → BackendResult)
    (keys : List String) (log : List String)
    (hfail : ∀ k s, oracle k ≠ BackendResult.ok s)
    (hne : keys ≠ []) (hk : ∀ k ∈ keys, k ≠ "")
    (hrt : splitSent (joinSent keys) = keys) :
    batch_translate oracle keys log
      = (keys, log ++ List.replicate 3 (joinSent keys)) := by
  obtain ⟨x, xs, rfl⟩ : ∃ x xs, keys = x :: xs := by
    cases keys with
    | nil => exact absurd rfl hne
    | cons x xs => exact ⟨x, xs, rfl⟩
  have hj : joinSent (x :: xs) ≠ "" := joinSent_ne_empty x xs (hk x (by simp))
  have htwc := translate_with_context_fail oracle (joinSent (x :: xs)) log hfail hj
  simp only [batch_translate, htwc, hrt]
  simp [show (joinSent (x :: xs) == "") = false by simpa using hj]


theorem keysOf_ne_nil (batch : List ((Nat × Nat) × String))
    (hne : batch ≠ []) (hk : ∀ x ∈ batch, x.2 ≠ "") : keysOf batch ≠ [] := by
  obtain ⟨x, xs, rfl⟩ : ∃ x xs, batch = x :: xs := by
    cases batch with
    | nil => exact absurd rfl hne
    | cons x xs => exact ⟨x, xs, rfl⟩
  intro h
  have hx : x.2 ∈ keysOf (x :: xs) := by
    rw [keysOf_mem]
    exact ⟨by simp, hk x (by simp)⟩
  rw [h] at hx
  cases hx

theorem process_cell_batch_fail (oracle : Nat → BackendResult)
    (batch : List ((Nat × Nat) × String)) (log : List String)
    (hfail : ∀ k s, oracle k ≠ BackendResult.ok s)
    (hne : batch ≠ []) (hk : ∀ x ∈ batch, x.2 ≠ "")
    (hrt : splitSent (joinSent (keysOf batch)) = keysOf batch) :
    process_cell_batch oracle batch log
      = (echoResults batch, log ++ List.replicate 3 (joinSent (keysOf batch))) := by
  have hkeys : ∀ k ∈ keysOf batch, k ≠ "" := by
    intro k hkm
    exact ((keysOf_mem batch k).mp hkm).2
  have hb := batch_translate_fail oracle (keysOf batch) log hfail
    (keysOf_ne_nil batch hne hk) hkeys hrt
  simp only [process_cell_batch, hb, echoResults]

theorem echoResults_mem (batch : List ((Nat × Nat) × String))
    (p : Nat × Nat) (t : String) :
    (p, t) ∈ echoResults batch ↔ ((p, t) ∈ batch ∧ t ≠ "") := by
  unfold echoResults
  simp only [List.mem_flatten, List.mem_map]
  constructor
  · rintro ⟨l, ⟨kt, hkt, rfl⟩, hm⟩
    rcases List.mem_map.mp hm with ⟨c, hc, he⟩
    rw [Prod.mk.injEq] at he
    have hks : kt.1 = kt.2 := by
      have := zip_self_mem (keysOf batch) kt.1 kt.2
      exact this (by rw [show (kt.1, kt.2) = kt from rfl]; exact hkt)
    have hkm : kt.1 ∈ keysOf batch := ((List.of_mem_zip (by
      rw [show (kt.1, kt.2) = kt from rfl]; exact hkt)).1)
    constructor
    · rw [← he.1, ← he.2, ← hks]
      exact (groupCells_mem _ _ _).mp hc
    · rw [← he.2, ← hks]
      exact ((keysOf_mem batch kt.1).mp hkm).2
  · rintro ⟨hb, ht⟩
    have hkm : t ∈ keysOf batch := by
      rw [keysOf_mem]
      refine ⟨?_, ht⟩
      rw [List.mem_map]
      exact ⟨(p, t), hb, rfl⟩
    refine ⟨(groupCells batch t).map (fun c => (c, t)), ⟨(t, t), mem_zip_self _ _ hkm, rfl⟩, ?_⟩
    rw [List.mem_map]
    exact ⟨p, (groupCells_mem _ _ _).mpr hb, rfl⟩

theorem chunksAux_flatten {α : Type} :
    ∀ (fuel : Nat) (l : List α), l.length ≤ fuel →
      (chunksAux fuel l).flatten = l := by
  intro fuel
  induction fuel with
  | zero =>
    intro l hl
    cases l with
    | nil => rfl
    | cons c rest => simp at hl
  | succ f ih =>
    intro l hl
    cases l with
    | nil => rfl
    | cons c rest =>
      have hd : ((c :: rest).drop BATCH_SIZE).length ≤ f := by
        rw [List.length_drop]
        simp only [List.length_cons] at hl ⊢
        have : BATCH_SIZE = 10 := rfl
        omega
      simp only [chunksAux, List.flatten_cons, ih _ hd, List.take_append_drop]

theorem chunksOf10_flatten {α : Type} (l : List α) :
    (chunksOf10 l).flatten = l :=
  chunksAux_flatten l.length l (le_refl _)

theorem chunksAux_ne_nil {α : Type} :
    ∀ (fuel : Nat) (l : List α) (b : List α), b ∈ chunksAux fuel l → b ≠ [] := by
  intro fuel
  induction fuel with
  | zero =>
    intro l b hb
    cases l with
    | nil => cases hb
    | cons c rest =>
      rw [show chunksAux 0 (c :: rest) = [c :: rest] from rfl] at hb
      rcases List.mem_singleton.mp hb with rfl
      exact List.cons_ne_nil c rest
  | succ f ih =>
    intro l b hb
    cases l with
    | nil => cases hb
    | cons c rest =>
      simp only [chunksAux, List.mem_cons] at hb
      rcases hb with rfl | hb
      · have hlen : ((c :: rest).take BATCH_SIZE).length ≠ 0 := by
          rw [List.length_take]
          have : BATCH_SIZE = 10 := rfl
          simp only [List.length_cons]
          omega
        intro h
        rw [h] at hlen
        exact hlen rfl
      · exact ih _ b hb

theorem chunksOf10_sub {α : Type} (l : List α) (b : List α)
    (hb : b ∈ chunksOf10 l) (x : α) (hx : x ∈ b) : x ∈ l := by
  rw [← chunksOf10_flatten l]
  rw [List.mem_flatten]
  exact ⟨b, hb, hx⟩

theorem chunksOf10_cover {α : Type} (l : List α) (x : α) (hx : x ∈ l) :
    ∃ b ∈ chunksOf10 l, x ∈ b := by
  rw [← chunksOf10_flatten l] at hx
  exact List.mem_flatten.mp hx

theorem translateResults_fold_mem (oracle : Nat → BackendResult)
    (hfail : ∀ k s, oracle k ≠ BackendResult.ok s) :
    ∀ (C : List (List ((Nat × Nat) × String)))
      (acc : List ((Nat × Nat) × String)) (log : List String),
      (∀ b ∈ C, b ≠ []) → (∀ b ∈ C, ∀ x ∈ b, x.2 ≠ "") →
      (∀ b ∈ C, splitSent (joinSent (keysOf b)) = keysOf b) →
      ∀ x, (x ∈ (C.foldl
          (fun acc2 b =>
            let r := process_cell_batch oracle b acc2.2
            (acc2.1 ++ r.1, r.2)) (acc, log)).1
        ↔ (x ∈ acc ∨ ∃ b ∈ C, x ∈ echoResults b)) := by
  intro C
  induction C with
  | nil =>
    intro acc log _ _ _ x
    simp
  | cons b C' ih =>
    intro acc log hne hk hrt x
    rw [List.foldl_cons]
    have hpcb := process_cell_batch_fail oracle b log hfail
      (hne b (by simp)) (hk b (by simp)) (hrt b (by simp))
    simp only [hpcb]
    rw [ih (acc ++ echoResults b) _
      (fun b2 h2 => hne b2 (List.mem_cons_of_mem _ h2))
      (fun b2 h2 => hk b2 (List.mem_cons_of_mem _ h2))
      (fun b2 h2 => hrt b2 (List.mem_cons_of_mem _ h2)) x]
    rw [List.mem_append]
    constructor
    · rintro ((h | h) | h)
      · exact Or.inl h
      · exact Or.inr ⟨b, by simp, h⟩
      · rcases h with ⟨b2, hb2, hx2⟩
        exact Or.inr ⟨b2, List.mem_cons_of_mem _ hb2, hx2⟩
    · rintro (h | ⟨b2, hb2, hx2⟩)
      · exact Or.inl (Or.inl h)
      · rcases List.mem_cons.mp hb2 with rfl | hb2
        · exact Or.inl (Or.inr hx2)
        · exact Or.inr ⟨b2, hb2, hx2⟩

theorem translateResults_mem (oracle : Nat → BackendResult)
    (c2p : List ((Nat × Nat) × String)) (log : List String)
    (hfail : ∀ k s, oracle k ≠ BackendResult.ok s)
    (hk : ∀ x ∈ c2p, x.2 ≠ "")
    (hrt : ∀ b ∈ chunksOf10 c2p, splitSent (joinSent (keysOf b)) = keysOf b)
    (p : Nat × Nat) (t : String) :
    (p, t) ∈ (translateResults oracle c2p log).1 ↔ (p, t) ∈ c2p := by
  unfold translateResults
  rw [translateResults_fold_mem oracle hfail (chunksOf10 c2p) [] log
    (fun b hb => chunksAux_ne_nil _ _ b hb)
    (fun b hb x hx => hk x (chunksOf10_sub c2p b hb x hx))
    hrt (p, t)]
  constructor
  · rintro (h | ⟨b, hb, hx⟩)
    · cases h
    · exact chunksOf10_sub c2p b hb (p, t)
        (((echoResults_mem b p t).mp hx).1)
  · intro h
    rcases chunksOf10_cover c2p (p, t) h with ⟨b, hb, hx⟩
    exact Or.inr ⟨b, hb, (echoResults_mem b p t).mpr ⟨hx, hk (p, t) h⟩⟩

theorem translatableText_some (v : Option CellValue) (s : String)
    (h : translatableText v = some s) :
    v = some (CellValue.str s) ∧ s ≠ "" ∧ is_numeric_string s = false := by
  cases v with
  | none => cases h
  | some cv =>
    cases cv with
    | str u =>
      by_cases hc : (!(u == "") && !(is_numeric_string u)) = true
      · have h2 : u = s := by
          have he : translatableText (some (CellValue.str u)) = some u := by
            simp only [translatableText]
            rw [if_pos hc]
          rw [he, Option.some.injEq] at h
          exact h
        subst h2
        simp only [Bool.and_eq_true, Bool.not_eq_true'] at hc
        exact ⟨rfl, by simpa using hc.1, hc.2⟩
      · rw [show translatableText (some (CellValue.str u)) = none by
          simp only [translatableText]
          rw [if_neg hc]] at h
        cases h
    | num n => cases h
    | boolv b => cases h

theorem cellsToProcess_mem (cells : List SrcCell) (p : Nat × Nat) (s : String) :
    (p, s) ∈ cellsToProcess cells ↔
      ∃ c ∈ cells, c.isMergedMember = false ∧ (c.row, c.col) = p ∧
        translatableText c.value = some s := by
  unfold cellsToProcess
  rw [List.mem_filterMap]
  constructor
  · rintro ⟨c, hc, he⟩
    by_cases hm : c.isMergedMember
    · rw [if_pos hm] at he
      cases he
    · rw [if_neg hm] at he
      cases ht : translatableText c.value with
      | none => rw [ht] at he; cases he
      | some u =>
        rw [ht] at he
        rw [Option.some.injEq, Prod.mk.injEq] at he
        exact ⟨c, hc, by simpa using hm, he.1, by rw [ht, he.2]⟩
  · rintro ⟨c, hc, hm, hp, ht⟩
    refine ⟨c, hc, ?_⟩
    rw [if_neg (by simp [hm]), ht, hp]

theorem cellsToProcess_text_ne (cells : List SrcCell) (x : (Nat × Nat) × String)
    (hx : x ∈ cellsToProcess cells) : x.2 ≠ "" := by
  obtain ⟨p, s⟩ := x
  rcases (cellsToProcess_mem cells p s).mp hx with ⟨c, _, _, _, ht⟩
  exact (translatableText_some _ _ ht).2.1

theorem c2p_functional (cells : List SrcCell)
    (hnd : (cells.map (fun x => (x.row, x.col))).Nodup)
    (p : Nat × Nat) (s1 s2 : String)
    (h1 : (p, s1) ∈ cellsToProcess cells)
    (h2 : (p, s2) ∈ cellsToProcess cells) : s1 = s2 := by
  rcases (cellsToProcess_mem cells p s1).mp h1 with ⟨c1, hc1, _, hp1, ht1⟩
  rcases (cellsToProcess_mem cells p s2).mp h2 with ⟨c2, hc2, _, hp2, ht2⟩
  have hcc : c1 = c2 := by
    refine List.inj_on_of_nodup_map hnd hc1 hc2 ?_
    rw [hp1, hp2]
  rw [hcc] at ht1
  rw [ht1] at ht2
  exact (Option.some.injEq _ _ ▸ ht2)

theorem dstCells_cons (a : SrcCell) (as : List SrcCell)
    (results : List ((Nat × Nat) × String)) :
    dstCells (a :: as) results
      = if a.isMergedMember then dstCells as results
        else mkDst results a :: dstCells as results := by
  unfold dstCells
  rw [List.filterMap_cons]
  by_cases h : a.isMergedMember
  · rw [if_pos h, if_pos h]
  · rw [if_neg h, if_neg h]

theorem find_dstCells :
    ∀ (cells : List SrcCell) (results : List ((Nat × Nat) × String))
      (c : SrcCell), c ∈ cells → c.isMergedMember = false →
      (cells.map (fun x => (x.row, x.col))).Nodup →
      (dstCells cells results).find? (fun d => d.row == c.row && d.col == c.col)
        = some (mkDst results c) := by
  intro cells
  induction cells with
  | nil => intro results c h; cases h
  | cons a as ih =>
    intro results c hmem hnm hnd
    simp only [List.map_cons, List.nodup_cons] at hnd
    rw [dstCells_cons]
    rcases List.mem_cons.mp hmem with rfl | hmem2
    · rw [if_neg (by simp [hnm])]
      rw [List.find?_cons_of_pos]
      simp [mkDst]
    · have hpos : (a.row, a.col) ≠ (c.row, c.col) := by
        intro h
        apply hnd.1
        rw [h]
        exact List.mem_map.mpr ⟨c, hmem2, rfl⟩
      by_cases hma : a.isMergedMember
      · rw [if_pos hma]
        exact ih results c hmem2 hnm hnd.2
      · rw [if_neg hma]
        rw [List.find?_cons_of_neg]
        · exact ih results c hmem2 hnm hnd.2
        · simp only [mkDst, Bool.and_eq_true, beq_iff_eq]
          intro h
          exact hpos (by rw [h.1, h.2])

/-- C5 (amended): for every cell that is not a non-anchor member of a
merge group, the destination cell's style equals the source cell's style
— independent of the backend's behaviour and of translation success
(`copyStyle` copies the six attributes when `has_style`;  an unstyled
source cell carries the default style, which the fresh destination cell
also carries).  Non-anchor merge members are skipped and come out with
the default style (see the counterexample). -/
theorem c5_style_preserved (oracle : Nat → BackendResult) (src : SrcSheet)
    (log : List String) (c : SrcCell)
    (hc : c ∈ src.cells) (hm : c.isMergedMember = false)
    (hnd : (src.cells.map (fun x => (x.row, x.col))).Nodup)
    (hwf : c.hasStyle = false → c.style = defaultStyle) :
    dstStyleAt (process_sheet oracle src log).1 c.row c.col = c.style := by
  unfold process_sheet dstStyleAt
  simp only
  rw [find_dstCells src.cells _ c hc hm hnd]
  simp only [mkDst]
  by_cases hh : c.hasStyle
  · rw [if_pos hh]
    show copyStyle c = c.style
    unfold copyStyle
    rfl
  · rw [if_neg hh]
    exact (hwf (by simpa using hh)).symm

/-- Witness for the amended C5 at the styled ordinary cell of
`w5Sheet`. -/
theorem c5_style_preserved_witness :
    dstStyleAt (process_sheet failOracle w5Sheet []).1 2 3 = ⟨9, 8, 7, 6, 5, 4⟩ :=
  c5_style_preserved failOracle w5Sheet [] w5Cell (by decide) (by decide)
    (by decide) (by decide)

/-- C4 (amended): if every backend call fails (raises, times out,
returns a non-success status or an empty response), the sheet pipeline —
which is total, so nothing escapes the translation layer — writes every
translatable cell's input text back to its output cell, provided no
batch's joined unique-string block interferes with the sentinel encoding
(formally: splitting the joined block returns the original strings; a
cell text containing `"\n---SPLIT---\n"` breaks this, see the
counterexample). -/
theorem c4_total_fallback (oracle : Nat → BackendResult) (src : SrcSheet)
    (log : List String) (c : SrcCell) (s : String)
    (hfail : ∀ k u, oracle k ≠ BackendResult.ok u)
    (hrt : ∀ b ∈ chunksOf10 (cellsToProcess src.cells),
      splitSent (joinSent (keysOf b)) = keysOf b)
    (hnd : (src.cells.map (fun x => (x.row, x.col))).Nodup)
    (hc : c ∈ src.cells) (hm : c.isMergedMember = false)
    (ht : translatableText c.value = some s) :
    dstValueAt (process_sheet oracle src log).1 c.row c.col = c.value := by
  have hcv := translatableText_some c.value s ht
  have hmem : ((c.row, c.col), s) ∈ cellsToProcess src.cells :=
    (cellsToProcess_mem _ _ _).mpr ⟨c, hc, hm, rfl, ht⟩
  have hrmem : ((c.row, c.col), s)
      ∈ (translateResults oracle (cellsToProcess src.cells) log).1 :=
    (translateResults_mem oracle _ log hfail (cellsToProcess_text_ne _) hrt
      _ _).mpr hmem
  have hsome : ((translateResults oracle (cellsToProcess src.cells) log).1.find?
      (fun e => e.1.1 == c.row && e.1.2 == c.col)).isSome := by
    rw [List.find?_isSome]
    exact ⟨((c.row, c.col), s), hrmem, by simp⟩
  obtain ⟨e, he⟩ := Option.isSome_iff_exists.mp hsome
  have hep := List.find?_some he
  have hem := List.mem_of_find?_eq_some he
  simp only [Bool.and_eq_true, beq_iff_eq] at hep
  have hepos : e.1 = (c.row, c.col) := by
    rw [show e.1 = (e.1.1, e.1.2) from rfl, hep.1, hep.2]
  have hec2p : (e.1, e.2) ∈ cellsToProcess src.cells := by
    refine (translateResults_mem oracle _ log hfail (cellsToProcess_text_ne _)
      hrt _ _).mp ?_
    rw [show (e.1, e.2) = e from rfl]
    exact hem
  have hes : e.2 = s := by
    refine c2p_functional src.cells hnd (c.row, c.col) e.2 s ?_ hmem
    rw [← hepos]
    exact hec2p
  unfold process_sheet dstValueAt
  simp only
  rw [find_dstCells src.cells _ c hc hm hnd]
  simp only [mkDst, ht]
  rw [he]
  simp [hes, hcv.1]

/-- Witness for the amended C4: a one-cell sheet holding `hello` with
the all-failing backend keeps its text. -/
theorem c4_total_fallback_witness :
    dstValueAt (process_sheet failOracle (strCellSheet "hello") []).1 1 1
      = some (CellValue.str "hello") :=
  c4_total_fallback failOracle (strCellSheet "hello") [] (mkStrCell 1 1 "hello")
    "hello" (fun k u h => by simp [failOracle] at h)
    (by decide) (by decide) (by decide) (by decide) (by decide)
